import Mathlib

/-
Verification of the schema-guided dialogue state tracking (SGD) core:
a shallow embedding, over lists of rationals, of

  * `SGDModel` (sgd_model.py): the masking utility `_get_mask`, the
    `Logits` / `LogitsNew` element scorers, `_get_requested_slots`,
    `_get_categorical_slot_values` and `_get_slots_status`;
  * the prediction decoder `eval_iter_callback` and
    `combine_predictions_in_example` (sgd_callback.py): softmax/sigmoid
    decisions, the joint span-selection algorithm over the T*T
    outer-sum score matrix, and batch reassembly;
  * the `BERT` wrapper constructor validation (bert_nm.py).

Tensors are modelled as (nested) lists of `Rat`; elementwise torch
operations become `List.map` / `List.zip`; `torch.argmax` over a
flattened tensor is the first index attaining the maximum.  The
floating-point functions `exp` (inside softmax / sigmoid) and `gelu`
are abstracted as function parameters; where a proof needs a property
of them (positivity of `exp`) it is an explicit hypothesis.
-/

/-! ### torch.argmax / torch.max over a flattened tensor

`argmaxFrom bi bv i l` scans `l`, whose first element sits at flat
index `i`, carrying the best index `bi` and best value `bv` seen so
far; a later element replaces the current best only if strictly
greater, which matches argmax returning the first maximal index. -/

def argmaxFrom : Nat → ℚ → Nat → List ℚ → Nat × ℚ
  | bi, bv, _, [] => (bi, bv)
  | bi, bv, i, x :: xs => if bv < x then argmaxFrom i x (i + 1) xs else argmaxFrom bi bv (i + 1) xs

def argmaxCore : List ℚ → Nat × ℚ
  | [] => (0, 0)
  | x :: xs => argmaxFrom 0 x 1 xs

/-- Model of `torch.argmax` on a 1-D tensor (first maximal index). -/
def argmax (l : List ℚ) : Nat := (argmaxCore l).1

/-- Model of `torch.max(...)` (the maximal value) on a 1-D tensor. -/
def maxVal (l : List ℚ) : ℚ := (argmaxCore l).2

/-! ### Linear layers and activations (torch.nn.Linear, F.gelu)

`gelu` and the floating-point `exp` are abstracted as function
parameters `act`, `f` of type `ℚ → ℚ`. -/

def dotQ (a b : List ℚ) : ℚ := (List.zipWith (fun x y => x * y) a b).sum

/-- A `torch.nn.Linear(in, out)` layer: `weight` is `out × in`, `bias`
has length `out`; `apply` computes `weight @ x + bias` for one input
vector. -/
structure LinearLayer where
  weight : List (List ℚ)
  bias : List ℚ

def LinearLayer.apply (L : LinearLayer) (x : List ℚ) : List ℚ :=
  List.zipWith (fun w b => dotQ w x + b) L.weight L.bias

/-! ### Masking utility: `SGDModel._get_mask` (sgd_model.py:445-450)

    mask = torch.arange(0, max_length, 1) < torch.unsqueeze(actual_length, dim=-1)
    negative_logits = (torch.finfo(logits.dtype).max * -0.7) * torch.ones(logits.size())

`dtypeMax` stands for `torch.finfo(logits.dtype).max`.  One row of the
broadcast comparison is `maskRow`; `negativeLike` is one row of the
sentinel tensor, which has the shape of `logits`. -/

def maskRow (max_length : Nat) (actual_length : ℤ) : List Bool :=
  (List.range max_length).map (fun (i : Nat) => decide ((i : ℤ) < actual_length))

def negativeLike (dtypeMax : ℚ) (row : List ℚ) : List ℚ :=
  row.map (fun _ => dtypeMax * (-7/10))

def get_mask (dtypeMax : ℚ) (logits : List (List ℚ)) (max_length : Nat)
    (actual_length : List ℤ) : List (List Bool) × List (List ℚ) :=
  (actual_length.map (maskRow max_length), logits.map (negativeLike dtypeMax))

/-- Elementwise `torch.where(mask, a, b)` on one row. -/
def whereRow (mask : List Bool) (a b : List ℚ) : List ℚ :=
  List.zipWith (fun m pq => if m then pq.1 else pq.2) mask
    (List.zipWith (fun p q => (p, q)) a b)

/-! ### Element scorers `Logits` / `LogitsNew` (sgd_model.py:19-110)

Per batch example: `Logits.forward` projects the utterance embedding
(linear + gelu), broadcasts it across the `num_elements` element
embeddings, concatenates along the feature axis, and applies
linear → gelu → linear. -/

structure LogitsParams where
  utterance_proj : LinearLayer
  layer1 : LinearLayer
  layer2 : LinearLayer

def logitsRow (act : ℚ → ℚ) (P : LogitsParams) (ue e : List ℚ) : List ℚ :=
  P.layer2.apply ((P.layer1.apply (ue ++ e)).map act)

def logitsForward (act : ℚ → ℚ) (P : LogitsParams) (encoded_utterance : List ℚ)
    (element_embeddings : List (List ℚ)) : List (List ℚ) :=
  let ue := (P.utterance_proj.apply encoded_utterance).map act
  element_embeddings.map (logitsRow act P ue)

/-- The score that `Logits` (with `num_classes = 1`) assigns to a single
element embedding `e` given the pooled utterance vector `u`. -/
def element_score (act : ℚ → ℚ) (P : LogitsParams) (u e : List ℚ) : ℚ :=
  ((logitsForward act P u [e]).getD 0 []).getD 0 0

/-- Model of `LogitsNew.forward` (sgd_model.py:87-110): same projected +
concatenated features, but scored against a per-element weight tensor
`W : num_elements × 2D × num_classes` by elementwise product and
reduce-sum over the feature axis. -/
structure LogitsNewParams where
  num_classes : Nat
  utterance_proj : LinearLayer

def logitsNewForward (act : ℚ → ℚ) (P : LogitsNewParams) (encoded_utterance : List ℚ)
    (element_embeddings : List (List ℚ)) (weight_matrix : List (List (List ℚ))) :
    List (List ℚ) :=
  let ue := (P.utterance_proj.apply encoded_utterance).map act
  (element_embeddings.zip weight_matrix).map (fun ew =>
    let x := ue ++ ew.1
    (List.range P.num_classes).map (fun c =>
      (List.zipWith (fun xd wrow => xd * wrow.getD c 0) x ew.2).sum))

/-! ### Softmax and sigmoid (torch.nn.Softmax(dim=-1), torch.nn.Sigmoid)

`f` abstracts the floating-point `exp`. -/

def softmaxQ (f : ℚ → ℚ) (xs : List ℚ) : List ℚ :=
  let es := xs.map f
  es.map (fun e => e / es.sum)

def sigmoidQ (f : ℚ → ℚ) (x : ℚ) : ℚ := 1 / (1 + f (-x))

/-- Decoder field req_slot_status (sgd_callback.py:50):
`torch.nn.Sigmoid()` applied elementwise to the row of requested-slot
logits of one example. -/
def req_slot_status (f : ℚ → ℚ) (logit_req_slot_status : List ℚ) : List ℚ :=
  logit_req_slot_status.map (sigmoidQ f)

/-! ### Joint span selection (sgd_callback.py:67-92), per example and slot

    start_scores = softmax(logit_noncat_slot_start)
    end_scores = softmax(logit_noncat_slot_end)
    total_scores = unsqueeze(start_scores, 3) + unsqueeze(end_scores, 2)
    total_scores = where(start_idx > end_idx, 0, total_scores)
    max_span_index = argmax(total_scores.view(-1, S, T*T))
    max_span_p = max(total_scores.view(-1, S, T*T))
    span_start_index = div(max_span_index, T) ; span_end_index = fmod(max_span_index, T)

`totalScores sp ep` is the `T × T` matrix with entry `(i, j)` equal to
`sp[i] + ep[j]`, overwritten with `0` where `i > j`. -/

def totalScores (sp ep : List ℚ) : List (List ℚ) :=
  (List.range sp.length).map (fun i =>
    (List.range ep.length).map (fun j =>
      if i > j then (0 : ℚ) else sp.getD i 0 + ep.getD j 0))

def max_span_index (f : ℚ → ℚ) (sl el : List ℚ) : Nat :=
  argmax (totalScores (softmaxQ f sl) (softmaxQ f el)).flatten

def max_span_p (f : ℚ → ℚ) (sl el : List ℚ) : ℚ :=
  maxVal (totalScores (softmaxQ f sl) (softmaxQ f el)).flatten

def span_start_index (f : ℚ → ℚ) (sl el : List ℚ) : Nat :=
  max_span_index f sl el / (softmaxQ f el).length

def span_end_index (f : ℚ → ℚ) (sl el : List ℚ) : Nat :=
  max_span_index f sl el % (softmaxQ f el).length

/-- The span-recovery step (sgd_callback.py:84-89) abstracted over the
score matrix it is run on: flatten the `T × T` matrix, take the first
maximal flat index `k`, and return `(k / T, k % T)`. -/
def span_from_matrix (M : List (List ℚ)) (T : Nat) : Nat × Nat :=
  (argmax M.flatten / T, argmax M.flatten % T)

/-! ### Status / value confidences (sgd_callback.py:53-65), per slot row -/

/-- Decoder field cat_slot_status_p (sgd_callback.py:57): the maximum
of the softmax of the 3-class status logits of one slot. -/
def cat_slot_status_p (f : ℚ → ℚ) (logit_row : List ℚ) : ℚ := maxVal (softmaxQ f logit_row)

/-- Decoder field cat_slot_value_p (sgd_callback.py:59): the maximum
of the softmax of the value logits of one slot. -/
def cat_slot_value_p (f : ℚ → ℚ) (logit_row : List ℚ) : ℚ := maxVal (softmaxQ f logit_row)

/-- Decoder field noncat_slot_status_p (sgd_callback.py:65): the
maximum of the softmax of the 3-class status logits of one slot. -/
def noncat_slot_status_p (f : ℚ → ℚ) (logit_row : List ℚ) : ℚ := maxVal (softmaxQ f logit_row)

/-! ### `SGDModel._get_categorical_slot_values` (sgd_model.py:345-369), per example

    cat_slot_value_emb_reshaped = cat_slot_value_emb.view(-1, S*V, D)
    value_logits = self.cat_slot_value_layer(encoded_utterance, cat_slot_value_emb_reshaped)
    value_logits = value_logits.view(-1, S, V)
    mask, negative_logits = self._get_mask(value_logits, V, num_categorical_slot_values)
    value_logits = torch.where(mask, value_logits, negative_logits)

`splitInto k n l` cuts `l` into `k` consecutive rows of length `n`
(the `view(-1, S, V)` reshape, and also the row structure used by
`torch.chunk`). -/

def splitInto {α : Type} : Nat → Nat → List α → List (List α)
  | 0, _, _ => []
  | k + 1, n, l => l.take n :: splitInto k n (l.drop n)

def get_categorical_slot_values (act : ℚ → ℚ) (P : LogitsParams) (dtypeMax : ℚ)
    (encoded_utterance : List ℚ) (cat_slot_value_emb : List (List (List ℚ)))
    (num_categorical_slot_values : List ℤ) : List (List ℚ) :=
  let max_num_slots := cat_slot_value_emb.length
  let max_num_values := (cat_slot_value_emb.headD []).length
  let cat_slot_value_emb_reshaped := cat_slot_value_emb.flatten
  let value_logits0 := logitsForward act P encoded_utterance cat_slot_value_emb_reshaped
  -- view(-1, S, V): the trailing num_classes = 1 axis collapses, so each
  -- scored row contributes its single entry
  let value_logits := splitInto max_num_slots max_num_values
    (value_logits0.map (fun r => r.getD 0 0))
  let mn := get_mask dtypeMax value_logits max_num_values num_categorical_slot_values
  (List.zipWith (fun mrow rows => whereRow mrow rows.1 rows.2) mn.1
    (List.zipWith (fun a b => (a, b)) value_logits mn.2))

/-! ### Batch reassembly: `combine_predictions_in_example` (sgd_callback.py:105-119)

    v = torch.chunk(v, batch_size)
    examples_preds[i][k] = v[i].view(-1)

`torchChunk` follows `torch.chunk(v, chunks)`: the chunk size is
`ceil(len / chunks)` and `ceil(len / size)` chunks are returned. -/

def torchChunk {α : Type} (chunks : Nat) (v : List α) : List (List α) :=
  let size := (v.length + chunks - 1) / chunks
  splitInto ((v.length + size - 1) / size) size v

/-- The per-field body of `combine_predictions_in_example`: chunk the
batched tensor along the leading axis and flatten each chunk
(the per-chunk `view(-1)`), giving the record value of each example. -/
def combine_predictions_field (v : List (List ℚ)) (batch_size : Nat) : List (List ℚ) :=
  (torchChunk batch_size v).map List.flatten

/-! ### `SGDModel._get_slots_status` (sgd_model.py:405-443), per example

The four status-scoring modes.  `cat_slot_status_layer` is a
`LogitsNew(3, D)` (sgd_model.py:200) whose `forward` takes THREE
arguments `(encoded_utterance, element_embeddings, weight_matrix)`;
the `special_tokens_single` and `special_tokens_double` branches call
it with only two arguments (sgd_model.py:418, 420, 422), which raises
a `TypeError` in Python before any logits are produced.  Failure is
modelled with `Except`; `torch.cat` along the last axis with
mismatching middle axes (possible in `special_tokens_multi` when
`T < MAX_NUM_CAT_SLOT + MAX_NUM_NONCAT_SLOT`) is likewise an error. -/

structure SGDStatusParams where
  cat_slot_status_layer : LogitsNewParams
  noncat_slot_status_layer : LogitsParams
  slot_status_token_layer1 : LinearLayer
  slot_status_token_layer2 : LinearLayer
  MAX_NUM_CAT_SLOT : Nat
  MAX_NUM_NONCAT_SLOT : Nat

def get_slots_status (act : ℚ → ℚ) (P : SGDStatusParams) (slots_status_model : String)
    (cat_slot_emb noncat_slot_emb : List (List ℚ)) (token_embeddings : List (List ℚ))
    (encoded_utterance : List ℚ)
    (cat_slot_emb_weights noncat_slot_emb_weights : List (List (List ℚ))) :
    Except String (List (List ℚ) × List (List ℚ)) :=
  if slots_status_model = "cls_token" then
    .ok (logitsNewForward act P.cat_slot_status_layer encoded_utterance cat_slot_emb
           cat_slot_emb_weights,
         logitsForward act P.noncat_slot_status_layer encoded_utterance noncat_slot_emb)
  else if slots_status_model = "special_tokens_single" then
    -- self.cat_slot_status_layer(token_embeddings[:, -1], cat_slot_emb):
    -- LogitsNew.forward is missing its weight_matrix argument
    .error "TypeError: forward() missing 1 required positional argument: weight_matrix"
  else if slots_status_model = "special_tokens_double" then
    -- self.cat_slot_status_layer(token_embeddings[:, -2], cat_slot_emb):
    -- LogitsNew.forward is missing its weight_matrix argument
    .error "TypeError: forward() missing 1 required positional argument: weight_matrix"
  else if slots_status_model = "special_tokens_multi" then
    let S := P.MAX_NUM_CAT_SLOT + P.MAX_NUM_NONCAT_SLOT
    let token_embeddings_status := token_embeddings.drop (token_embeddings.length - S)
    let all_slot_emb := cat_slot_emb ++ noncat_slot_emb
    if token_embeddings_status.length = all_slot_emb.length then
      let slot_token_embeddings :=
        List.zipWith (fun t e => t ++ e) token_embeddings_status all_slot_emb
      let logit_slot_status_tokens := slot_token_embeddings.map (fun x =>
        P.slot_status_token_layer2.apply ((P.slot_status_token_layer1.apply x).map act))
      .ok (logit_slot_status_tokens.take P.MAX_NUM_CAT_SLOT,
           logit_slot_status_tokens.drop P.MAX_NUM_CAT_SLOT)
    else .error "RuntimeError: torch.cat sizes of tensors must match"
  else .error "NameError: logit_cat_slot_status is not defined"

/-! ### `BERT.__init__` argument validation (bert_nm.py:95-138) -/

/-- Which of the three construction branches built the model. -/
inductive BertSource
  | fromVocab
  | fromPretrained
  | fromConfigFile
deriving DecidableEq

/-- The `total` counter of non-None arguments (bert_nm.py:97-103). -/
def bert_total (pretrained_model_name config_filename : Option String)
    (vocab_size : Option Nat) : Nat :=
  (if pretrained_model_name.isSome then 1 else 0)
    + (if config_filename.isSome then 1 else 0)
    + (if vocab_size.isSome then 1 else 0)

def only_one_msg : String :=
  "Only one of pretrained_model_name, vocab_size, or config_filename should be passed into the BERT constructor."

def either_msg : String :=
  "Either pretrained_model_name or vocab_size must be passed into the BERT constructor"

/-- The validation and branch structure of `BERT.__init__`: the
exactly-one-of check raises first (before any model is constructed);
otherwise the three construction branches are tried in source order,
with the final `else` raise. -/
def bert_init (pretrained_model_name config_filename : Option String)
    (vocab_size : Option Nat) : Except String BertSource :=
  if bert_total pretrained_model_name config_filename vocab_size ≠ 1 then
    .error only_one_msg
  else if vocab_size.isSome then .ok .fromVocab
  else if pretrained_model_name.isSome then .ok .fromPretrained
  else if config_filename.isSome then .ok .fromConfigFile
  else .error either_msg

/-- Concrete scorer parameters used by witness instantiations. -/
def sampleLogitsParams : LogitsParams :=
  { utterance_proj := ⟨[], []⟩, layer1 := ⟨[], []⟩, layer2 := ⟨[[]], [5]⟩ }

theorem argmaxFrom_le (l : List ℚ) : ∀ (bi : Nat) (bv : ℚ) (i : Nat),
    bv ≤ (argmaxFrom bi bv i l).2 := by
  induction l with
  | nil => intro bi bv i; simp [argmaxFrom]
  | cons x xs ih =>
    intro bi bv i
    by_cases h : bv < x
    · simp only [argmaxFrom, if_pos h]
      exact le_of_lt (lt_of_lt_of_le h (ih i x (i + 1)))
    · simp only [argmaxFrom, if_neg h]
      exact ih bi bv (i + 1)

theorem argmaxFrom_mem_le (l : List ℚ) : ∀ (bi : Nat) (bv : ℚ) (i : Nat) (y : ℚ),
    y ∈ l → y ≤ (argmaxFrom bi bv i l).2 := by
  induction l with
  | nil => intro _ _ _ y hy; cases hy
  | cons x xs ih =>
    intro bi bv i y hy
    rcases List.mem_cons.mp hy with rfl | hy
    · by_cases h : bv < y
      · simp only [argmaxFrom, if_pos h]
        exact argmaxFrom_le xs i y (i + 1)
      · simp only [argmaxFrom, if_neg h]
        exact le_trans (not_lt.mp h) (argmaxFrom_le xs bi bv (i + 1))
    · by_cases h : bv < x
      · simp only [argmaxFrom, if_pos h]
        exact ih i x (i + 1) y hy
      · simp only [argmaxFrom, if_neg h]
        exact ih bi bv (i + 1) y hy

theorem argmaxFrom_attained (l : List ℚ) : ∀ (bi : Nat) (bv : ℚ) (i : Nat),
    argmaxFrom bi bv i l = (bi, bv) ∨
      ∃ j, j < l.length ∧ argmaxFrom bi bv i l = (i + j, l.getD j 0) := by
  induction l with
  | nil => intro bi bv i; left; rfl
  | cons x xs ih =>
    intro bi bv i
    by_cases h : bv < x
    · right
      rcases ih i x (i + 1) with heq | ⟨j, hj, heq⟩
      · refine ⟨0, by simp, ?_⟩
        simp only [argmaxFrom, if_pos h, heq, List.getD_cons_zero, Nat.add_zero]
      · refine ⟨j + 1, by simp [Nat.succ_lt_succ hj], ?_⟩
        simp only [argmaxFrom, if_pos h, heq, List.getD_cons_succ]
        exact congrArg (fun n => (n, xs.getD j 0)) (by omega)
    · rcases ih bi bv (i + 1) with heq | ⟨j, hj, heq⟩
      · left; simp only [argmaxFrom, if_neg h, heq]
      · right
        refine ⟨j + 1, by simp [Nat.succ_lt_succ hj], ?_⟩
        simp only [argmaxFrom, if_neg h, heq, List.getD_cons_succ]
        exact congrArg (fun n => (n, xs.getD j 0)) (by omega)

theorem argmaxFrom_stable (l : List ℚ) : ∀ (bi : Nat) (bv : ℚ) (i : Nat),
    (∀ y ∈ l, y ≤ bv) → argmaxFrom bi bv i l = (bi, bv) := by
  induction l with
  | nil => intro bi bv i _; rfl
  | cons x xs ih =>
    intro bi bv i hall
    have hx : ¬ bv < x := not_lt.mpr (hall x (by simp))
    simp only [argmaxFrom, if_neg hx]
    exact ih bi bv (i + 1) (fun y hy => hall y (by simp [hy]))

theorem argmaxFrom_unique (l : List ℚ) : ∀ (bi : Nat) (bv : ℚ) (i k : Nat),
    k < l.length → bv < l.getD k 0 →
    (∀ m, m < l.length → m ≠ k → l.getD m 0 < l.getD k 0) →
    argmaxFrom bi bv i l = (i + k, l.getD k 0) := by
  induction l with
  | nil => intro _ _ _ k hk; simp at hk
  | cons x xs ih =>
    intro bi bv i k hk hbv hmax
    cases k with
    | zero =>
      have hx : bv < x := by simpa using hbv
      simp only [argmaxFrom, if_pos hx, List.getD_cons_zero, Nat.add_zero]
      have hall : ∀ y ∈ xs, y ≤ x := by
        intro y hy
        obtain ⟨j, hj, rfl⟩ := List.mem_iff_getElem.mp hy
        have := hmax (j + 1) (by simpa using Nat.succ_lt_succ hj) (by omega)
        simp only [List.getD_cons_succ, List.getD_cons_zero] at this
        rw [List.getD_eq_getElem _ _ hj] at this
        exact le_of_lt this
      exact argmaxFrom_stable xs i x (i + 1) hall
    | succ j =>
      have hj : j < xs.length := by simpa using hk
      have htarget : (x :: xs).getD (j + 1) 0 = xs.getD j 0 := List.getD_cons_succ
      have hmax' : ∀ m, m < xs.length → m ≠ j → xs.getD m 0 < xs.getD j 0 := by
        intro m hm hmj
        have := hmax (m + 1) (by simpa using Nat.succ_lt_succ hm) (by omega)
        simpa using this
      by_cases h : bv < x
      · have hxlt : x < xs.getD j 0 := by
          have := hmax 0 (by simp) (by omega)
          simpa using this
        simp only [argmaxFrom, if_pos h, htarget]
        have := ih i x (i + 1) j hj hxlt hmax'
        rw [this]
        exact congrArg (fun n => (n, xs.getD j 0)) (by omega)
      · have hbv' : bv < xs.getD j 0 := by rw [htarget] at hbv; exact hbv
        simp only [argmaxFrom, if_neg h, htarget]
        have := ih bi bv (i + 1) j hj hbv' hmax'
        rw [this]
        exact congrArg (fun n => (n, xs.getD j 0)) (by omega)

theorem le_maxVal (l : List ℚ) (y : ℚ) (hy : y ∈ l) : y ≤ maxVal l := by
  cases l with
  | nil => cases hy
  | cons x xs =>
    rcases List.mem_cons.mp hy with rfl | hy
    · exact argmaxFrom_le xs 0 y 1
    · exact argmaxFrom_mem_le xs 0 x 1 y hy

theorem argmax_spec (l : List ℚ) (hne : l ≠ []) :
    argmax l < l.length ∧ l.getD (argmax l) 0 = maxVal l := by
  cases l with
  | nil => exact absurd rfl hne
  | cons x xs =>
    rcases argmaxFrom_attained xs 0 x 1 with heq | ⟨j, hj, heq⟩
    · constructor
      · simp [argmax, argmaxCore, heq]
      · simp [argmax, maxVal, argmaxCore, heq]
    · constructor
      · simp only [argmax, argmaxCore, heq, List.length_cons]
        omega
      · simp only [argmax, maxVal, argmaxCore, heq]
        have : (1 + j) = j + 1 := by omega
        rw [this, List.getD_cons_succ]

theorem argmax_lt_length (l : List ℚ) (hne : l ≠ []) : argmax l < l.length :=
  (argmax_spec l hne).1

theorem getD_argmax (l : List ℚ) (hne : l ≠ []) : l.getD (argmax l) 0 = maxVal l :=
  (argmax_spec l hne).2

theorem maxVal_mem (l : List ℚ) (hne : l ≠ []) : maxVal l ∈ l := by
  have h := getD_argmax l hne
  rw [← h, List.getD_eq_getElem _ _ (argmax_lt_length l hne)]
  exact List.getElem_mem _

theorem argmax_unique (l : List ℚ) (k : Nat) (hk : k < l.length)
    (hmax : ∀ m, m < l.length → m ≠ k → l.getD m 0 < l.getD k 0) :
    argmax l = k := by
  cases l with
  | nil => simp at hk
  | cons x xs =>
    cases k with
    | zero =>
      have hall : ∀ y ∈ xs, y ≤ x := by
        intro y hy
        obtain ⟨j, hj, rfl⟩ := List.mem_iff_getElem.mp hy
        have := hmax (j + 1) (by simpa using Nat.succ_lt_succ hj) (by omega)
        simp only [List.getD_cons_succ, List.getD_cons_zero] at this
        rw [List.getD_eq_getElem _ _ hj] at this
        exact le_of_lt this
      simp [argmax, argmaxCore, argmaxFrom_stable xs 0 x 1 hall]
    | succ j =>
      have hj : j < xs.length := by simpa using hk
      have hx : x < xs.getD j 0 := by
        have := hmax 0 (by simp) (by omega)
        simpa using this
      have hmax' : ∀ m, m < xs.length → m ≠ j → xs.getD m 0 < xs.getD j 0 := by
        intro m hm hmj
        have := hmax (m + 1) (by simpa using Nat.succ_lt_succ hm) (by omega)
        simpa using this
      have := argmaxFrom_unique xs 0 x 1 j hj (by simpa using hx) hmax'
      simp only [argmax, argmaxCore, this]
      omega

/-! ### List access helpers -/

theorem getD_map_of_lt {α β : Type} (f : α → β) (l : List α) (i : Nat) (h : i < l.length)
    (d : β) (d0 : α) : (l.map f).getD i d = f (l.getD i d0) := by
  rw [List.getD_eq_getElem _ _ (by simpa using h), List.getD_eq_getElem _ _ h,
    List.getElem_map]

theorem getD_range_map {β : Type} (f : Nat → β) (n i : Nat) (h : i < n) (d : β) :
    ((List.range n).map f).getD i d = f i := by
  rw [getD_map_of_lt f _ i (by simpa using h) d 0,
    List.getD_eq_getElem _ _ (by simpa using h)]
  simp

theorem length_flatten_rect (M : List (List ℚ)) (T : Nat)
    (hrect : ∀ r ∈ M, r.length = T) : M.flatten.length = M.length * T := by
  induction M with
  | nil => simp
  | cons r rs ih =>
    have hr : r.length = T := hrect r (by simp)
    have := ih (fun x hx => hrect x (by simp [hx]))
    simp only [List.flatten_cons, List.length_append, List.length_cons, this, hr]
    ring

/-- Row-major flattening: the flat element at index `k` of a rectangular
matrix whose rows have length `T` is the entry at row `k / T`, column
`k % T`. -/
theorem flatten_getD_rect (M : List (List ℚ)) (T : Nat) :
    ∀ k, (∀ r ∈ M, r.length = T) → k < M.length * T →
    M.flatten.getD k 0 = (M.getD (k / T) []).getD (k % T) 0 := by
  induction M with
  | nil => intro k _ hk; simp at hk
  | cons r rs ih =>
    intro k hrect hk
    have hr : r.length = T := hrect r (by simp)
    have hT : 0 < T := by
      rcases Nat.eq_zero_or_pos T with h0 | h
      · subst h0; simp at hk
      · exact h
    by_cases hkT : k < T
    · rw [List.flatten_cons, List.getD_append _ _ _ _ (by omega),
        Nat.div_eq_of_lt hkT, Nat.mod_eq_of_lt hkT, List.getD_cons_zero]
    · push_neg at hkT
      rw [List.flatten_cons, List.getD_append_right _ _ _ _ (by omega), hr]
      have hdiv : k / T = (k - T) / T + 1 := Nat.div_eq_sub_div hT hkT
      have hmod : k % T = (k - T) % T := Nat.mod_eq_sub_mod hkT
      rw [hdiv, hmod, List.getD_cons_succ]
      refine ih (k - T) (fun x hx => hrect x (by simp [hx])) ?_
      have hexp : (r :: rs).length * T = rs.length * T + T := by
        simp only [List.length_cons]
        ring
      rw [hexp] at hk
      omega

/-! ### Derived access lemmas for the model -/

theorem getD_zipWith_of_lt {α β γ : Type} (f : α → β → γ) (a : List α) (b : List β)
    (i : Nat) (ha : i < a.length) (hb : i < b.length) (d : γ) (da : α) (db : β) :
    (List.zipWith f a b).getD i d = f (a.getD i da) (b.getD i db) := by
  rw [List.getD_eq_getElem _ _ (by simp [List.length_zipWith]; omega),
    List.getD_eq_getElem _ _ ha, List.getD_eq_getElem _ _ hb, List.getElem_zipWith]

theorem maskRow_getD (C : Nat) (len : ℤ) (i : Nat) (hi : i < C) :
    (maskRow C len).getD i false = decide ((i : ℤ) < len) := by
  unfold maskRow
  exact getD_range_map _ C i hi false

/-- Claim C1: for `0 ≤ len ≤ C`, the mask built by `SGDModel._get_mask`
is true at index `i` iff `i < len`, independently per batch example;
the accompanying negative tensor has the same shape as `logits` and
every entry equals `torch.finfo(logits.dtype).max * -0.7`. -/
theorem c1_get_mask_correct (dtypeMax : ℚ) (logits : List (List ℚ)) (C : Nat)
    (actual_length : List ℤ) (b i : Nat)
    (hb : b < actual_length.length)
    (hlen0 : 0 ≤ actual_length.getD b 0) (hlenC : actual_length.getD b 0 ≤ (C : ℤ))
    (hi : i < C) :
    ((((get_mask dtypeMax logits C actual_length).1.getD b []).getD i false) = true
        ↔ (i : ℤ) < actual_length.getD b 0)
      ∧ (get_mask dtypeMax logits C actual_length).2.length = logits.length
      ∧ (∀ j, ((get_mask dtypeMax logits C actual_length).2.getD j []).length
          = (logits.getD j []).length)
      ∧ (∀ r ∈ (get_mask dtypeMax logits C actual_length).2, ∀ x ∈ r,
          x = dtypeMax * (-7/10)) := by
  refine ⟨?_, ?_, ?_, ?_⟩
  · have h1 : (get_mask dtypeMax logits C actual_length).1.getD b []
        = maskRow C (actual_length.getD b 0) := by
      unfold get_mask
      exact getD_map_of_lt _ _ b hb [] 0
    rw [h1, maskRow_getD C _ i hi]
    exact decide_eq_true_iff
  · unfold get_mask
    simp
  · intro j
    by_cases hj : j < logits.length
    · unfold get_mask
      rw [getD_map_of_lt _ _ j hj [] []]
      unfold negativeLike
      simp
    · push_neg at hj
      unfold get_mask
      rw [List.getD_eq_default _ _ (by simpa using hj), List.getD_eq_default _ _ hj]
  · intro r hr x hx
    unfold get_mask at hr
    obtain ⟨row, _, rfl⟩ := List.mem_map.mp hr
    unfold negativeLike at hx
    obtain ⟨y, _, rfl⟩ := List.mem_map.mp hx
    rfl

theorem c1_get_mask_correct_witness :
    ((((get_mask 1 [[5, 6]] 2 [1]).1.getD 0 []).getD 0 false) = true
        ↔ (0 : ℤ) < ([1] : List ℤ).getD 0 0)
      ∧ (get_mask 1 [[5, 6]] 2 [1]).2.length = ([[5, 6]] : List (List ℚ)).length
      ∧ (∀ j, ((get_mask 1 [[5, 6]] 2 [1]).2.getD j []).length
          = (([[5, 6]] : List (List ℚ)).getD j []).length)
      ∧ (∀ r ∈ (get_mask 1 [[5, 6]] 2 [1]).2, ∀ x ∈ r, x = 1 * (-7/10)) :=
  c1_get_mask_correct 1 [[5, 6]] 2 [1] 0 0 (by norm_num) (by norm_num) (by norm_num)
    (by norm_num)

/-- Claim C7: each requested-slot probability is the elementwise sigmoid
of the raw logit of that slot alone and does not depend on any other
logit: two logit rows agreeing at position `i` decode to the same
probability at `i`. -/
theorem c7_req_slot_sigmoid (f : ℚ → ℚ) (xs ys : List ℚ) (i : Nat)
    (hx : i < xs.length) (hy : i < ys.length)
    (hagree : xs.getD i 0 = ys.getD i 0) :
    (req_slot_status f xs).getD i 0 = sigmoidQ f (xs.getD i 0)
      ∧ (req_slot_status f xs).getD i 0 = (req_slot_status f ys).getD i 0 := by
  have h1 : (req_slot_status f xs).getD i 0 = sigmoidQ f (xs.getD i 0) := by
    unfold req_slot_status
    exact getD_map_of_lt _ _ i hx 0 0
  have h2 : (req_slot_status f ys).getD i 0 = sigmoidQ f (ys.getD i 0) := by
    unfold req_slot_status
    exact getD_map_of_lt _ _ i hy 0 0
  exact ⟨h1, by rw [h1, h2, hagree]⟩

theorem c7_req_slot_sigmoid_witness :
    (req_slot_status (fun x => x + 1) [0, 10]).getD 0 0
        = sigmoidQ (fun x => x + 1) (([0, 10] : List ℚ).getD 0 0)
      ∧ (req_slot_status (fun x => x + 1) [0, 10]).getD 0 0
        = (req_slot_status (fun x => x + 1) [0, -5]).getD 0 0 :=
  c7_req_slot_sigmoid (fun x => x + 1) [0, 10] [0, -5] 0 (by norm_num) (by norm_num) rfl

/-- Claim C9: `BERT.__init__` raises a `ValueError` iff the number of
non-None arguments among `pretrained_model_name`, `config_filename`
and `vocab_size` differs from one, and on that path the raised error is
the exactly-one-of check, which runs before any model construction. -/
theorem c9_bert_exactly_one (p c : Option String) (v : Option Nat) :
    ((∃ e, bert_init p c v = .error e) ↔ bert_total p c v ≠ 1)
      ∧ (bert_total p c v ≠ 1 → bert_init p c v = .error only_one_msg) := by
  rcases p with _ | pn <;> rcases c with _ | cn <;> rcases v with _ | vn <;>
    simp [bert_init, bert_total, only_one_msg, either_msg]

theorem c9_bert_exactly_one_witness :
    bert_init (some "bert-base-cased") (some "config.json") none = .error only_one_msg :=
  (c9_bert_exactly_one (some "bert-base-cased") (some "config.json") none).2 (by decide)

/-- Claim C10: whenever the exactly-one-of check passes
(`bert_total = 1`), one of the three construction branches of
`BERT.__init__` is taken, so the final `else` raise
("Either pretrained_model_name or vocab_size must be passed ...") is
unreachable. -/
theorem c10_bert_final_else_unreachable (p c : Option String) (v : Option Nat)
    (h : bert_total p c v = 1) : ∃ d, bert_init p c v = .ok d := by
  rcases p with _ | pn <;> rcases c with _ | cn <;> rcases v with _ | vn <;>
    simp [bert_total] at h <;> exact ⟨_, rfl⟩

theorem c10_bert_final_else_unreachable_witness :
    ∃ d, bert_init none none (some 30000) = .ok d :=
  c10_bert_final_else_unreachable none none (some 30000) (by decide)

/-! ### Softmax properties and the span-selection claims -/

theorem softmaxQ_length (f : ℚ → ℚ) (xs : List ℚ) : (softmaxQ f xs).length = xs.length := by
  simp [softmaxQ]

theorem softmaxQ_getD_bounds (f : ℚ → ℚ) (hf : ∀ x, 0 < f x) (xs : List ℚ)
    (i : Nat) (hi : i < xs.length) :
    0 < (softmaxQ f xs).getD i 0 ∧ (softmaxQ f xs).getD i 0 ≤ 1 := by
  have hne : xs.map f ≠ [] := by
    intro h
    have h0 : xs.length = 0 := by simpa using congrArg List.length h
    omega
  have hS : 0 < (xs.map f).sum := by
    refine List.sum_pos _ ?_ hne
    intro y hy
    obtain ⟨x, _, rfl⟩ := List.mem_map.mp hy
    exact hf x
  have hentry : (softmaxQ f xs).getD i 0 = f (xs.getD i 0) / (xs.map f).sum := by
    unfold softmaxQ
    rw [getD_map_of_lt _ _ i (by simpa using hi) 0 0, getD_map_of_lt _ _ i hi 0 0]
  constructor
  · rw [hentry]
    exact div_pos (hf _) hS
  · rw [hentry]
    rw [div_le_one hS]
    refine List.single_le_sum (fun y hy => ?_) _ ?_
    · obtain ⟨x, _, rfl⟩ := List.mem_map.mp hy
      exact le_of_lt (hf x)
    · rw [List.getD_eq_getElem _ _ hi, ← List.getElem_map f (h := by simpa using hi)]
      exact List.getElem_mem _

theorem softmaxQ_mem_bounds (f : ℚ → ℚ) (hf : ∀ x, 0 < f x) (xs : List ℚ)
    (y : ℚ) (hy : y ∈ softmaxQ f xs) : 0 < y ∧ y ≤ 1 := by
  obtain ⟨j, hj, rfl⟩ := List.mem_iff_getElem.mp hy
  have hj' : j < xs.length := by
    rw [softmaxQ_length] at hj
    exact hj
  rw [← List.getD_eq_getElem _ 0 hj]
  exact softmaxQ_getD_bounds f hf xs j hj'

theorem totalScores_length (sp ep : List ℚ) : (totalScores sp ep).length = sp.length := by
  simp [totalScores]

theorem totalScores_rect (sp ep : List ℚ) :
    ∀ r ∈ totalScores sp ep, r.length = ep.length := by
  intro r hr
  obtain ⟨i, _, rfl⟩ := List.mem_map.mp hr
  simp

theorem totalScores_getD (sp ep : List ℚ) (i j : Nat)
    (hi : i < sp.length) (hj : j < ep.length) :
    ((totalScores sp ep).getD i []).getD j 0
      = if i > j then (0 : ℚ) else sp.getD i 0 + ep.getD j 0 := by
  unfold totalScores
  rw [getD_range_map _ sp.length i hi []]
  exact getD_range_map _ ep.length j hj 0

/-- Claim C5: on a `T × T` score matrix with a unique maximum at flat
index `k`, the span-recovery step `(k // T, k % T)` of
`eval_iter_callback` (integer division and `fmod` of the flat argmax)
addresses exactly the maximal cell of the matrix. -/
theorem c5_span_recovery (M : List (List ℚ)) (T k : Nat)
    (hM : M.length = T) (hrect : ∀ r ∈ M, r.length = T) (hk : k < T * T)
    (hmax : ∀ m, m < T * T → m ≠ k → M.flatten.getD m 0 < M.flatten.getD k 0) :
    span_from_matrix M T = (k / T, k % T)
      ∧ (M.getD ((span_from_matrix M T).1) []).getD ((span_from_matrix M T).2) 0
          = maxVal M.flatten := by
  have hlen : M.flatten.length = T * T := by rw [length_flatten_rect M T hrect, hM]
  have hargmax : argmax M.flatten = k :=
    argmax_unique M.flatten k (by rw [hlen]; exact hk)
      (fun m hm hmk => hmax m (by rwa [hlen] at hm) hmk)
  have hne : M.flatten ≠ [] := by
    intro h0
    have hz : M.flatten.length = 0 := by rw [h0]; rfl
    omega
  have hfirst : span_from_matrix M T = (k / T, k % T) := by
    unfold span_from_matrix
    rw [hargmax]
  refine ⟨hfirst, ?_⟩
  rw [hfirst]
  have hflat := flatten_getD_rect M T k hrect (by rw [hM]; exact hk)
  rw [← hflat, ← hargmax]
  exact getD_argmax M.flatten hne

theorem c5_span_recovery_witness :
    span_from_matrix [[1, 2], [3, 0]] 2 = (2 / 2, 2 % 2)
      ∧ (([[1, 2], [3, 0]] : List (List ℚ)).getD
            ((span_from_matrix [[1, 2], [3, 0]] 2).1) []).getD
          ((span_from_matrix [[1, 2], [3, 0]] 2).2) 0
        = maxVal ([[1, 2], [3, 0]] : List (List ℚ)).flatten :=
  c5_span_recovery [[1, 2], [3, 0]] 2 2 (by norm_num) (by decide) (by norm_num) (by decide)

/-- Claim C2: the decoded span always satisfies `start ≤ end`: after
softmaxing start and end logits, forming the outer-sum matrix, zeroing
entries with `i > j` and taking the flat argmax, the selected cell
never has start index exceeding end index. -/
theorem c2_span_start_le_end (f : ℚ → ℚ) (hf : ∀ x, 0 < f x) (sl el : List ℚ)
    (hsl : sl ≠ []) (hel : el ≠ []) (hlen : sl.length = el.length) :
    span_start_index f sl el ≤ span_end_index f sl el := by
  have hT : 0 < el.length := List.length_pos.mpr hel
  have hsp : (softmaxQ f sl).length = el.length := by rw [softmaxQ_length, hlen]
  have hep : (softmaxQ f el).length = el.length := softmaxQ_length f el
  have hrect := totalScores_rect (softmaxQ f sl) (softmaxQ f el)
  have hrect' : ∀ r ∈ totalScores (softmaxQ f sl) (softmaxQ f el), r.length = el.length := by
    intro r hr
    rw [hrect r hr, hep]
  have hMlen : (totalScores (softmaxQ f sl) (softmaxQ f el)).length = el.length := by
    rw [totalScores_length, hsp]
  have hflen : (totalScores (softmaxQ f sl) (softmaxQ f el)).flatten.length
      = el.length * el.length := by
    rw [length_flatten_rect _ el.length hrect', hMlen]
  have hfne : (totalScores (softmaxQ f sl) (softmaxQ f el)).flatten ≠ [] := by
    intro h0
    have hz : (totalScores (softmaxQ f sl) (softmaxQ f el)).flatten.length = 0 := by
      rw [h0]; rfl
    rw [hflen] at hz
    rcases Nat.mul_eq_zero.mp hz with h | h <;> omega
  set flat := (totalScores (softmaxQ f sl) (softmaxQ f el)).flatten with hflatdef
  set k := max_span_index f sl el with hkdef
  have hkarg : k = argmax flat := rfl
  have hklt : k < el.length * el.length := by
    rw [hkarg, ← hflen]
    exact argmax_lt_length flat hfne
  -- the value of the selected cell is the global maximum
  have hval : flat.getD k 0 = maxVal flat := by
    rw [hkarg]
    exact getD_argmax flat hfne
  -- cell (0, 0) is valid and has positive score, so the maximum is positive
  have h00 : flat.getD 0 0 = (softmaxQ f sl).getD 0 0 + (softmaxQ f el).getD 0 0 := by
    have := flatten_getD_rect _ el.length 0 hrect' (by rw [hMlen]; positivity)
    rw [hflatdef, this, Nat.zero_div, Nat.zero_mod]
    rw [totalScores_getD _ _ 0 0 (by rw [hsp]; exact hT) (by rw [hep]; exact hT)]
    simp
  have hpos00 : 0 < flat.getD 0 0 := by
    rw [h00]
    have h1 := (softmaxQ_getD_bounds f hf sl 0 (by rw [← hlen] at hT; exact hT)).1
    have h2 := (softmaxQ_getD_bounds f hf el 0 hT).1
    linarith
  have hmaxpos : 0 < flat.getD k 0 := by
    rw [hval]
    have hmem : flat.getD 0 0 ∈ flat := by
      rw [List.getD_eq_getElem _ _ (by rw [hflen]; positivity)]
      exact List.getElem_mem _
    exact lt_of_lt_of_le hpos00 (le_maxVal flat _ hmem)
  -- the value of the selected cell, by its row/column coordinates
  have hcell : flat.getD k 0
      = if k / el.length > k % el.length then (0 : ℚ)
        else (softmaxQ f sl).getD (k / el.length) 0
          + (softmaxQ f el).getD (k % el.length) 0 := by
    have := flatten_getD_rect _ el.length k hrect' (by rw [hMlen]; exact hklt)
    rw [hflatdef, this]
    exact totalScores_getD _ _ _ _
      (by rw [hsp]; exact Nat.div_lt_of_lt_mul hklt)
      (by rw [hep]; exact Nat.mod_lt _ hT)
  by_contra hcontra
  push_neg at hcontra
  have : span_end_index f sl el < span_start_index f sl el := hcontra
  unfold span_start_index span_end_index at this
  rw [hep] at this
  rw [if_pos this] at hcell
  rw [hcell] at hmaxpos
  exact lt_irrefl 0 hmaxpos

theorem c2_span_start_le_end_witness :
    span_start_index (fun _ => 1) [0, 1] [0, 1]
      ≤ span_end_index (fun _ => 1) [0, 1] [0, 1] :=
  c2_span_start_le_end (fun _ => 1) (fun _ => one_pos) [0, 1] [0, 1]
    (by simp) (by simp) rfl

/-! ### Confidence bounds (claim C4) -/

theorem status_conf_bounds (f : ℚ → ℚ) (hf : ∀ x, 0 < f x) (row : List ℚ)
    (hrow : row ≠ []) :
    0 ≤ maxVal (softmaxQ f row) ∧ maxVal (softmaxQ f row) ≤ 1 := by
  have hne : softmaxQ f row ≠ [] := by
    intro h
    have h0 : row.length = 0 := by
      have := congrArg List.length h
      rwa [softmaxQ_length] at this
    exact hrow (List.length_eq_zero.mp h0)
  have hmem := maxVal_mem (softmaxQ f row) hne
  have hb := softmaxQ_mem_bounds f hf row _ hmem
  exact ⟨le_of_lt hb.1, hb.2⟩

theorem totalScores_mem_bounds (f : ℚ → ℚ) (hf : ∀ x, 0 < f x) (sl el : List ℚ)
    (y : ℚ) (hy : y ∈ (totalScores (softmaxQ f sl) (softmaxQ f el)).flatten) :
    0 ≤ y ∧ y ≤ 2 := by
  obtain ⟨r, hr, hyr⟩ := List.mem_flatten.mp hy
  obtain ⟨i, hi, rfl⟩ := List.mem_map.mp hr
  have hi' : i < sl.length := by
    have := List.mem_range.mp hi
    rwa [softmaxQ_length] at this
  obtain ⟨j, hj, rfl⟩ := List.mem_map.mp hyr
  have hj' : j < el.length := by
    have := List.mem_range.mp hj
    rwa [softmaxQ_length] at this
  by_cases hij : i > j
  · rw [if_pos hij]
    norm_num
  · rw [if_neg hij]
    have h1 := softmaxQ_getD_bounds f hf sl i hi'
    have h2 := softmaxQ_getD_bounds f hf el j hj'
    constructor <;> linarith

theorem max_span_p_bounds (f : ℚ → ℚ) (hf : ∀ x, 0 < f x) (sl el : List ℚ)
    (hsl : sl ≠ []) (hel : el ≠ []) :
    0 ≤ max_span_p f sl el ∧ max_span_p f sl el ≤ 2 := by
  have hrect' : ∀ r ∈ totalScores (softmaxQ f sl) (softmaxQ f el),
      r.length = el.length := by
    intro r hr
    rw [totalScores_rect _ _ r hr, softmaxQ_length]
  have hflen : (totalScores (softmaxQ f sl) (softmaxQ f el)).flatten.length
      = sl.length * el.length := by
    rw [length_flatten_rect _ el.length hrect', totalScores_length, softmaxQ_length]
  have hfne : (totalScores (softmaxQ f sl) (softmaxQ f el)).flatten ≠ [] := by
    intro h0
    have hz : (totalScores (softmaxQ f sl) (softmaxQ f el)).flatten.length = 0 := by
      rw [h0]; rfl
    rw [hflen] at hz
    have hs : 0 < sl.length := List.length_pos.mpr hsl
    have he : 0 < el.length := List.length_pos.mpr hel
    rcases Nat.mul_eq_zero.mp hz with h | h <;> omega
  have hmem : max_span_p f sl el
      ∈ (totalScores (softmaxQ f sl) (softmaxQ f el)).flatten := maxVal_mem _ hfne
  exact totalScores_mem_bounds f hf sl el _ hmem

/-- Claim C4 as stated is false: the span confidence `noncat_slot_p` is
the maximum of a sum of a start and an end softmax probability, so it
can exceed 1.  For a single-token utterance both probabilities are 1,
giving confidence 2. -/
theorem c4_confidence_counterexample : ¬ (max_span_p (fun _ => 1) [0] [0] ≤ 1) := by
  have hval : max_span_p (fun _ => 1) [0] [0] = 2 := by
    norm_num [max_span_p, totalScores, softmaxQ, maxVal, argmaxCore, argmaxFrom,
      List.range_succ, List.range_zero]
  rw [hval]
  norm_num

/-- Claim C4, amended: the softmax-maximum confidences
`cat_slot_status_p`, `cat_slot_value_p` and `noncat_slot_status_p` lie
in `[0, 1]`; the span confidence `noncat_slot_p` lies in `[0, 2]` (it
is the maximal sum of a start and an end softmax probability). -/
theorem c4_confidence_bounds_amended (f : ℚ → ℚ) (hf : ∀ x, 0 < f x)
    (status_row value_row nstatus_row sl el : List ℚ)
    (h1 : status_row ≠ []) (h2 : value_row ≠ []) (h3 : nstatus_row ≠ [])
    (hsl : sl ≠ []) (hel : el ≠ []) :
    (0 ≤ cat_slot_status_p f status_row ∧ cat_slot_status_p f status_row ≤ 1)
      ∧ (0 ≤ cat_slot_value_p f value_row ∧ cat_slot_value_p f value_row ≤ 1)
      ∧ (0 ≤ noncat_slot_status_p f nstatus_row ∧ noncat_slot_status_p f nstatus_row ≤ 1)
      ∧ (0 ≤ max_span_p f sl el ∧ max_span_p f sl el ≤ 2) :=
  ⟨status_conf_bounds f hf status_row h1,
   status_conf_bounds f hf value_row h2,
   status_conf_bounds f hf nstatus_row h3,
   max_span_p_bounds f hf sl el hsl hel⟩

theorem c4_confidence_bounds_amended_witness :
    (0 ≤ cat_slot_status_p (fun _ => 1) [0, 1]
        ∧ cat_slot_status_p (fun _ => 1) [0, 1] ≤ 1)
      ∧ (0 ≤ cat_slot_value_p (fun _ => 1) [2, 3]
        ∧ cat_slot_value_p (fun _ => 1) [2, 3] ≤ 1)
      ∧ (0 ≤ noncat_slot_status_p (fun _ => 1) [4]
        ∧ noncat_slot_status_p (fun _ => 1) [4] ≤ 1)
      ∧ (0 ≤ max_span_p (fun _ => 1) [0, 1] [0, 1]
        ∧ max_span_p (fun _ => 1) [0, 1] [0, 1] ≤ 2) :=
  c4_confidence_bounds_amended (fun _ => 1) (fun _ => one_pos) [0, 1] [2, 3] [4]
    [0, 1] [0, 1] (by simp) (by simp) (by simp) (by simp) (by simp)

/-! ### Batch reassembly (claim C8) -/

theorem splitInto_ones {α : Type} : ∀ (N : Nat) (v : List α), v.length = N →
    splitInto N 1 v = v.map (fun x => [x]) := by
  intro N
  induction N with
  | zero =>
    intro v hv
    rw [List.length_eq_zero.mp hv]
    rfl
  | succ n ih =>
    intro v hv
    cases v with
    | nil => simp at hv
    | cons x t =>
      simp only [splitInto, List.take_succ_cons, List.take_zero, List.drop_succ_cons,
        List.drop_zero, List.map_cons]
      exact congrArg _ (ih t (by simpa using hv))

theorem torchChunk_self {α : Type} (v : List α) (N : Nat) (hv : v.length = N)
    (hN : 0 < N) : torchChunk N v = v.map (fun x => [x]) := by
  have hsize : (N + N - 1) / N = 1 := by
    apply Nat.div_eq_of_lt_le
    · omega
    · omega
  simp only [torchChunk, hv, hsize]
  have hN1 : (N + 1 - 1) / 1 = N := by omega
  rw [hN1]
  exact splitInto_ones N v hv

/-- Claim C8: `combine_predictions_in_example` splits a batched tensor
with leading dimension `N` into exactly `N` per-example records in the
original order: record `i` is the `i`-th slice flattened to 1-D, and
concatenating the records in index order reproduces the tensor. -/
theorem c8_combine_predictions (v : List (List ℚ)) (N : Nat)
    (hv : v.length = N) (hN : 0 < N) :
    (combine_predictions_field v N).length = N
      ∧ (∀ i, i < N → (combine_predictions_field v N).getD i [] = v.getD i [])
      ∧ (combine_predictions_field v N).flatten = v.flatten := by
  have key : combine_predictions_field v N = v := by
    unfold combine_predictions_field
    rw [torchChunk_self v N hv hN, List.map_map]
    have hcomp : (List.flatten ∘ fun x : List ℚ => [x]) = id := by
      funext x
      simp
    rw [hcomp, List.map_id]
  rw [key]
  exact ⟨hv, fun i _ => rfl, rfl⟩

theorem c8_combine_predictions_witness :
    (combine_predictions_field [[1, 2], [3], [4, 5], [6]] 4).length = 4
      ∧ (∀ i, i < 4 → (combine_predictions_field [[1, 2], [3], [4, 5], [6]] 4).getD i []
          = ([[1, 2], [3], [4, 5], [6]] : List (List ℚ)).getD i [])
      ∧ (combine_predictions_field [[1, 2], [3], [4, 5], [6]] 4).flatten
          = ([[1, 2], [3], [4, 5], [6]] : List (List ℚ)).flatten :=
  c8_combine_predictions [[1, 2], [3], [4, 5], [6]] 4 rfl (by norm_num)

/-! ### Categorical slot values (claim C6) -/

theorem splitInto_flatten_map {α β : Type} (f : α → β) :
    ∀ (M : List (List α)) (V : Nat), (∀ r ∈ M, r.length = V) →
    splitInto M.length V (M.flatten.map f) = M.map (fun r => r.map f) := by
  intro M
  induction M with
  | nil => intro V _; rfl
  | cons r rs ih =>
    intro V hrect
    have hr : r.length = V := hrect r (by simp)
    have ha : (r.map f).length = V := by simp [hr]
    simp only [List.length_cons, List.flatten_cons, List.map_append, splitInto,
      List.map_cons]
    have ht : (r.map f ++ rs.flatten.map f).take V = r.map f := by
      rw [← ha]
      exact List.take_left _ _
    have hd : (r.map f ++ rs.flatten.map f).drop V = rs.flatten.map f := by
      rw [← ha]
      exact List.drop_left _ _
    rw [ht, hd, ih V (fun x hx => hrect x (by simp [hx]))]


/-- Reading one entry through the `torch.where(mask, a, b)` structure of
the masked value logits. -/
theorem where_structure_getD (mask : List (List Bool)) (A B : List (List ℚ)) (s v : Nat)
    (hsm : s < mask.length) (hsA : s < A.length) (hsB : s < B.length)
    (hvm : v < (mask.getD s []).length) (hvA : v < (A.getD s []).length)
    (hvB : v < (B.getD s []).length) :
    ((List.zipWith (fun mrow rows => whereRow mrow rows.1 rows.2) mask
        (List.zipWith (fun a b => (a, b)) A B)).getD s []).getD v 0
      = if (mask.getD s []).getD v false then (A.getD s []).getD v 0
        else (B.getD s []).getD v 0 := by
  rw [getD_zipWith_of_lt _ _ _ s hsm
    (by simp only [List.length_zipWith]; omega) [] [] ([], [])]
  rw [getD_zipWith_of_lt (fun a b => (a, b)) A B s hsA hsB ([], []) [] []]
  unfold whereRow
  rw [getD_zipWith_of_lt _ _ _ v hvm
    (by simp only [List.length_zipWith]; omega) 0 false (0, 0)]
  rw [getD_zipWith_of_lt (fun p q => (p, q)) _ _ v hvA hvB (0, 0) 0 0]

/-- Claim C6: in the output of `SGDModel._get_categorical_slot_values`,
value logit `v` of slot `s` equals the Element-Scorer score of that
slot-value pair when `v < num_categorical_slot_values[s]`, and equals
the negative sentinel otherwise; in particular, a slot with zero real
values has every value logit equal to the sentinel. -/
theorem c6_categorical_slot_values (act : ℚ → ℚ) (P : LogitsParams) (dtypeMax : ℚ)
    (u : List ℚ) (M : List (List (List ℚ))) (n : List ℤ) (V s v : Nat)
    (hrect : ∀ r ∈ M, r.length = V) (hn : n.length = M.length)
    (hs : s < M.length) (hv : v < V) :
    (((get_categorical_slot_values act P dtypeMax u M n).getD s []).getD v 0
      = if (v : ℤ) < n.getD s 0
        then element_score act P u ((M.getD s []).getD v [])
        else dtypeMax * (-7/10))
    ∧ (n.getD s 0 ≤ 0 →
        ((get_categorical_slot_values act P dtypeMax u M n).getD s []).getD v 0
          = dtypeMax * (-7/10)) := by
  have hhead : (M.headD []).length = V := by
    cases M with
    | nil => simp at hs
    | cons r rs => exact hrect r (by simp)
  have hrow : (M.getD s []).length = V := by
    rw [List.getD_eq_getElem _ _ hs]
    exact hrect _ (List.getElem_mem hs)
  have hmain : ((get_categorical_slot_values act P dtypeMax u M n).getD s []).getD v 0
      = if (v : ℤ) < n.getD s 0
        then element_score act P u ((M.getD s []).getD v [])
        else dtypeMax * (-7/10) := by
    have hred : get_categorical_slot_values act P dtypeMax u M n
        = List.zipWith (fun mrow rows => whereRow mrow rows.1 rows.2)
            (n.map (maskRow V))
            (List.zipWith (fun a b => (a, b))
              (M.map (fun r => r.map ((fun w => w.getD 0 0)
                ∘ logitsRow act P (List.map act (P.utterance_proj.apply u)))))
              ((M.map (fun r => r.map ((fun w => w.getD 0 0)
                ∘ logitsRow act P (List.map act (P.utterance_proj.apply u))))).map
                (negativeLike dtypeMax))) := by
      simp only [get_categorical_slot_values, get_mask, logitsForward, List.map_map,
        hhead]
      rw [splitInto_flatten_map _ M V hrect]
      simp only [List.map_map]
    rw [hred]
    have hA : (M.map (fun r => r.map ((fun w => w.getD 0 0)
        ∘ logitsRow act P (List.map act (P.utterance_proj.apply u))))).getD s []
        = (M.getD s []).map ((fun w => w.getD 0 0)
            ∘ logitsRow act P (List.map act (P.utterance_proj.apply u))) :=
      getD_map_of_lt _ M s hs [] []
    have hB : ((M.map (fun r => r.map ((fun w => w.getD 0 0)
        ∘ logitsRow act P (List.map act (P.utterance_proj.apply u))))).map
          (negativeLike dtypeMax)).getD s []
        = negativeLike dtypeMax ((M.map (fun r => r.map ((fun w => w.getD 0 0)
            ∘ logitsRow act P (List.map act (P.utterance_proj.apply u))))).getD s []) :=
      getD_map_of_lt _ _ s (by simpa using hs) [] []
    have hMaskRow : (n.map (maskRow V)).getD s [] = maskRow V (n.getD s 0) :=
      getD_map_of_lt _ n s (by omega) [] 0
    rw [where_structure_getD _ _ _ s v (by simpa using (hn ▸ hs)) (by simpa using hs)
      (by simpa using hs)
      (by rw [hMaskRow]; unfold maskRow; rw [List.length_map, List.length_range]; exact hv)
      (by rw [hA, List.length_map, hrow]; exact hv)
      (by rw [hB, hA]; unfold negativeLike
          rw [List.length_map, List.length_map, hrow]; exact hv)]
    rw [hMaskRow, hA, hB, hA]
    rw [maskRow_getD V _ v hv]
    rw [getD_map_of_lt _ (M.getD s []) v (by omega) 0 []]
    unfold negativeLike
    rw [getD_map_of_lt _ ((M.getD s []).map _) v (by rw [List.length_map, hrow]; exact hv) 0 0]
    by_cases hc : (v : ℤ) < n.getD s 0
    · have hd : decide ((v : ℤ) < n.getD s 0) = true := by simpa using hc
      rw [hd, if_pos hc]
      simp only [if_true]
      rfl
    · have hd : decide ((v : ℤ) < n.getD s 0) = false := by simpa using hc
      rw [hd, if_neg hc]
      simp only [Bool.false_eq_true, if_false]
  refine ⟨hmain, fun hzero => ?_⟩
  rw [hmain, if_neg (by omega)]

theorem c6_categorical_slot_values_witness :
    ((((get_categorical_slot_values id sampleLogitsParams 1 []
          [[[0], [0]], [[0], [0]]] [1, 0]).getD 0 []).getD 1 0)
      = if (1 : ℤ) < ([1, 0] : List ℤ).getD 0 0
        then element_score id sampleLogitsParams []
          ((([[[0], [0]], [[0], [0]]] : List (List (List ℚ))).getD 0 []).getD 1 [])
        else 1 * (-7/10))
    ∧ (([1, 0] : List ℤ).getD 0 0 ≤ 0 →
        (((get_categorical_slot_values id sampleLogitsParams 1 []
            [[[0], [0]], [[0], [0]]] [1, 0]).getD 0 []).getD 1 0
          = 1 * (-7/10))) :=
  c6_categorical_slot_values id sampleLogitsParams 1 [] [[[0], [0]], [[0], [0]]]
    [1, 0] 2 0 1 (by decide) rfl (by norm_num) (by norm_num)

/-- Claim C3 is violated by the code: in the `special_tokens_single` and
`special_tokens_double` modes, `SGDModel._get_slots_status` calls
`self.cat_slot_status_layer` — a `LogitsNew`, whose `forward` requires
the third `weight_matrix` argument — with only two arguments
(sgd_model.py:418, 420, 422), so those modes raise a `TypeError`
instead of returning `(batch, S, 3)` logits. -/
theorem c3_slots_status_type_error (act : ℚ → ℚ) (P : SGDStatusParams)
    (cat_slot_emb noncat_slot_emb token_embeddings : List (List ℚ))
    (encoded_utterance : List ℚ)
    (cat_slot_emb_weights noncat_slot_emb_weights : List (List (List ℚ))) :
    get_slots_status act P "special_tokens_single" cat_slot_emb noncat_slot_emb
        token_embeddings encoded_utterance cat_slot_emb_weights noncat_slot_emb_weights
      = .error "TypeError: forward() missing 1 required positional argument: weight_matrix"
    ∧ get_slots_status act P "special_tokens_double" cat_slot_emb noncat_slot_emb
        token_embeddings encoded_utterance cat_slot_emb_weights noncat_slot_emb_weights
      = .error "TypeError: forward() missing 1 required positional argument: weight_matrix" := by
  constructor <;> rfl
